import Mathlib

/-!
Verification development for the category-aware log filtering and
handler-dispatch engine of `src/wiring/inc/spark_wiring_logging.h`
(namespace `spark`).

Modelling conventions:
* C strings (`const char *`) are modelled as `List Char`; a null pointer is
  modelled by wrapping in `Option`.
* Heap pointers (`LogHandler*`, `Print*`) are modelled as abstract ids
  (`Nat`); the allocated-object heap is a list of live ids, and `delete`
  removes an id from it.
* Virtual methods with a default implementation in the header are modelled
  as an `Option`-valued override field: `none` means the subclass did not
  override the method and the header's default body applies.
* The bodies of `LogFilter::level(const char*)`, the `LogManager` methods
  and `logProcessConfigRequest` live in a `.cpp` file that is not part of
  the sources; those operations are modelled from the specification, as
  marked in their doc comments.
-/

namespace Spark

/-- Modelled from the spec: the severity scale (defined in the missing
`logging.h`): ordered enumeration TRACE < INFO < WARN < ERROR < NONE, with
NONE the "never log" sentinel. -/
inductive LogLevel where
  | TRACE
  | INFO
  | WARN
  | ERROR
  | NONE
deriving DecidableEq

/-- Numeric rank of a severity, giving the total order of the scale. -/
def LogLevel.toNat : LogLevel → Nat
  | .TRACE => 0
  | .INFO => 1
  | .WARN => 2
  | .ERROR => 3
  | .NONE => 4

/-- The C++ comparison `a >= b` on `LogLevel` enum values. -/
def levelGE (a b : LogLevel) : Bool :=
  decide (b.toNat ≤ a.toNat)

/-- A C character string (`const char *` / `String` contents). -/
abbrev CString := List Char

/-- Translated from `spark::LogCategoryFilter`: a `(category, level)` pair. -/
structure LogCategoryFilter where
  cat_ : CString
  level_ : LogLevel
deriving DecidableEq

/-- Translated from `spark::LogCategoryFilters` (an array of category filters). -/
abbrev LogCategoryFilters := List LogCategoryFilter

/-- Modelled from the spec: an entry name matches a queried category when
the category equals the entry name or starts with the entry name followed
by a dot (`"."`-separated prefix). -/
def matchesCategory (name c : CString) : Bool :=
  name == c || (name ++ ['.']).isPrefixOf c

/-- Modelled from the spec: among the entries whose name matches the
category, select one with the longest name (the scan keeps the current
best and replaces it only by a strictly longer match). -/
def bestMatch (c : CString) : List LogCategoryFilter → Option LogCategoryFilter
  | [] => Option.none
  | e :: rest =>
    if matchesCategory e.cat_ c then
      match bestMatch c rest with
      | Option.none => some e
      | some b' => if b'.cat_.length < e.cat_.length then some e else some b'
    else
      bestMatch c rest

/-- Translated from `spark::LogFilter`: a built category filter table.  The `.cpp` lookup
structure (`cats_`/`nodes_`) is internal to the missing translation unit;
the table is modelled by its entry list plus the default level. -/
structure LogFilter where
  filters_ : LogCategoryFilters
  level_ : LogLevel
deriving DecidableEq

/-- Modelled from the spec: `LogFilter::level(const char *category)`, whose
body is in the missing `.cpp`.  A null category yields the default level;
otherwise longest-matching-prefix resolution over the entries, falling back
to the default level when no entry matches. -/
def LogFilter.level (f : LogFilter) (category : Option CString) : LogLevel :=
  match category with
  | Option.none => f.level_
  | some c =>
    match bestMatch c f.filters_ with
    | some e => e.level_
    | Option.none => f.level_

/-- An abstract heap pointer (a `LogHandler*` or `Print*` identity). -/
abbrev Ptr := Nat

/-- The set of live heap objects, as a list of allocated pointers. -/
abbrev Heap := List Ptr

/-- The C++ `delete` expression: the object disappears from the heap. -/
def deleteObj (heap : Heap) (p : Ptr) : Heap :=
  heap.erase p

/-- Structure `LogAttributes` (defined in the missing `logging.h`): optional message
attributes; the registry core never interprets them. -/
structure LogAttributes where
  code : Option Int := Option.none
  details : Option CString := Option.none

/-- Translated from `spark::LogHandler`, parametrised by the observable state `σ` of the
concrete subclass.  `logMessageImpl` models the pure-virtual
`logMessage`; `writeOverride` models the virtual two-argument `write`
(`none` when the subclass keeps the base implementation). -/
structure LogHandler (σ : Type) where
  filter_ : LogFilter
  logMessageImpl : σ → CString → LogLevel → Option CString → LogAttributes → σ
  writeOverride : Option (σ → CString → σ) := Option.none

/-- The virtual two-argument `LogHandler::write(data, size)`: the override
when the subclass provides one, otherwise the base body, which does
nothing (header lines 647-649). -/
def LogHandler.writeImpl {σ : Type} (h : LogHandler σ) (st : σ) (data : CString) : σ :=
  match h.writeOverride with
  | some f => f st data
  | Option.none => st

/-- Translated from `LogHandler::message` (header lines 635-639): forward the structured
message to `logMessage` iff `level >= filter_.level(category)`. -/
def LogHandler.message {σ : Type} (h : LogHandler σ) (st : σ) (msg : CString)
    (level : LogLevel) (category : Option CString) (attr : LogAttributes) : σ :=
  if levelGE level (h.filter_.level category) then
    h.logMessageImpl st msg level category attr
  else
    st

/-- Translated from `LogHandler::write` with level and category (header lines 641-645):
forward the raw bytes to the virtual `write` iff
`level >= filter_.level(category)`. -/
def LogHandler.write {σ : Type} (h : LogHandler σ) (st : σ) (data : CString)
    (level : LogLevel) (category : Option CString) : σ :=
  if levelGE level (h.filter_.level category) then
    h.writeImpl st data
  else
    st

/-- The gating condition of both forwarding paths: the handler accepts an
event iff its severity is at least the filter's resolved level. -/
def LogHandler.accepts {σ : Type} (h : LogHandler σ) (level : LogLevel)
    (category : Option CString) : Bool :=
  levelGE level (h.filter_.level category)

/-- A JSON value (`spark::JSONValue`): type-specific parameters, an
uninterpreted document as far as the registry is concerned. -/
structure JSONValue where
  tag : Nat := 0

/-- Translated from `spark::JSONString`. -/
abbrev JSONString := CString

/-- Translated from `spark::LogHandlerFactory`: `createHandlerImpl` models the
pure-virtual `createHandler` (`none` models a construction failure or an
unsupported type name); `destroyHandlerOverride` models the virtual
`destroyHandler` (`none` when the default body applies). -/
structure LogHandlerFactory where
  createHandlerImpl : JSONString → JSONValue → Option Ptr → LogLevel →
    LogCategoryFilters → Option Ptr
  destroyHandlerOverride : Option (Heap → Ptr → Heap) := Option.none

/-- Translated from `LogHandlerFactory::destroyHandler` (header lines 885-887): the
override when provided, otherwise `delete handler`. -/
def LogHandlerFactory.destroyHandler (f : LogHandlerFactory) (heap : Heap) (handler : Ptr) : Heap :=
  match f.destroyHandlerOverride with
  | some g => g heap handler
  | Option.none => deleteObj heap handler

/-- Translated from `spark::OutputStreamFactory`, modelled like `LogHandlerFactory`. -/
structure OutputStreamFactory where
  createStreamImpl : JSONString → JSONValue → Option Ptr
  destroyStreamOverride : Option (Heap → Ptr → Heap) := Option.none

/-- Translated from `OutputStreamFactory::destroyStream` (header lines 890-892): the
override when provided, otherwise `delete stream`. -/
def OutputStreamFactory.destroyStream (f : OutputStreamFactory) (heap : Heap) (stream : Ptr) : Heap :=
  match f.destroyStreamOverride with
  | some g => g heap stream
  | Option.none => deleteObj heap stream

/-- Translated from `LogManager::NamedHandler`: a factory-created named entry.  The owning
factories are stored by value (the source stores pointers to them). -/
structure NamedHandler where
  id : JSONString
  handler : Ptr
  handlerFactory : LogHandlerFactory
  stream : Option (Ptr × OutputStreamFactory) := Option.none

/-- Translated from `spark::LogManager` registry state.  Handlers are tracked by pointer
identity; the mutex is not modelled (all operations are atomic steps). -/
structure LogManager where
  handlerFactories_ : List LogHandlerFactory := []
  streamFactories_ : List OutputStreamFactory := []
  namedHandlers_ : List NamedHandler := []
  activeHandlers_ : List Ptr := []

/-- Modelled from the spec: `LogManager::addHandler` (body in the missing
`.cpp`).  Registers a non-owning reference; duplicate registration is
rejected with the registry unchanged.  Allocation failure of the backing
array is not modelled. -/
def LogManager.addHandler (m : LogManager) (handler : Ptr) : Bool × LogManager :=
  if m.activeHandlers_.contains handler then
    (false, m)
  else
    (true, { m with activeHandlers_ := m.activeHandlers_ ++ [handler] })

/-- Modelled from the spec: `LogManager::removeHandler` (body in the
missing `.cpp`).  Unregisters; no-op if not present. -/
def LogManager.removeHandler (m : LogManager) (handler : Ptr) : LogManager :=
  { m with activeHandlers_ := m.activeHandlers_.erase handler }

/-- Modelled from the spec: `LogManager::logEnabled` (body in the missing
`.cpp`), the `isEnabled` predicate hook: true iff some active sink would
accept an event of this severity and category.  `heap` gives each live
handler pointer its handler object. -/
def LogManager.logEnabled {σ : Type} (m : LogManager) (heap : Ptr → LogHandler σ)
    (level : LogLevel) (category : Option CString) : Bool :=
  m.activeHandlers_.any fun p => (heap p).accepts level category

/-- Modelled from the spec: consulting the registered stream factories for
one that can build a stream of the requested type (the factory signals an
unsupported type or a construction failure by returning null). -/
def createStreamVia : List OutputStreamFactory → JSONString → JSONValue →
    Option (Ptr × OutputStreamFactory)
  | [], _, _ => Option.none
  | f :: rest, ty, params =>
    match f.createStreamImpl ty params with
    | some p => some (p, f)
    | Option.none => createStreamVia rest ty params

/-- Modelled from the spec: consulting the registered handler factories
for one that can build a sink of the requested type. -/
def createHandlerVia : List LogHandlerFactory → JSONString → JSONValue → Option Ptr →
    LogLevel → LogCategoryFilters → Option (Ptr × LogHandlerFactory)
  | [], _, _, _, _, _ => Option.none
  | f :: rest, ty, params, stream, level, filters =>
    match f.createHandlerImpl ty params stream level filters with
    | some p => some (p, f)
    | Option.none => createHandlerVia rest ty params stream level filters

/-- Modelled from the spec: resolving the output stream of a named
handler.  The outer `Option` is failure (no registered factory builds a
stream of the requested type, or construction fails); the inner `Option`
distinguishes "no stream requested" (empty stream type) from a built
stream with its owning factory. -/
def streamFor (m : LogManager) (streamType : JSONString) (streamParams : JSONValue) :
    Option (Option (Ptr × OutputStreamFactory)) :=
  if streamType.isEmpty then
    some Option.none
  else
    match createStreamVia m.streamFactories_ streamType streamParams with
    | some r => some (some r)
    | Option.none => Option.none

/-- Modelled from the spec: `LogManager::addNamedHandler` (body in the
missing `.cpp`).  Fails with the registry unchanged when the id already
exists, when no registered factory can build the requested stream (for a
non-empty stream type) or sink, or when construction fails; on success the
entry is stored and the sink joins the active set.  Allocation failure of
the backing arrays is not modelled. -/
def LogManager.addNamedHandler (m : LogManager) (id handlerType : JSONString)
    (handlerParams : JSONValue) (streamType : JSONString) (streamParams : JSONValue)
    (level : LogLevel) (filters : LogCategoryFilters) : Bool × LogManager :=
  if m.namedHandlers_.any (fun nh => nh.id == id) then
    (false, m)
  else
    match streamFor m streamType streamParams with
    | Option.none => (false, m)
    | some stream =>
      match createHandlerVia m.handlerFactories_ handlerType handlerParams
          (stream.map Prod.fst) level filters with
      | Option.none => (false, m)
      | some (hp, hf) =>
        (true,
          { m with
            namedHandlers_ := m.namedHandlers_ ++ [⟨id, hp, hf, stream⟩],
            activeHandlers_ := m.activeHandlers_ ++ [hp] })

/-- Modelled from the spec: `LogManager::removeNamedHandler` (body in the
missing `.cpp`).  If the id is known: destroy the sink through its owning
factory (and the stream through its factory, when present), drop the sink
from the active set and erase the entry; otherwise a no-op. -/
def LogManager.removeNamedHandler (m : LogManager) (heap : Heap) (id : JSONString) :
    LogManager × Heap :=
  match m.namedHandlers_.find? (fun nh => nh.id == id) with
  | Option.none => (m, heap)
  | some nh =>
    let heap1 := nh.handlerFactory.destroyHandler heap nh.handler
    let heap2 :=
      match nh.stream with
      | some (sp, sf) => sf.destroyStream heap1 sp
      | Option.none => heap1
    ({ m with
        namedHandlers_ := m.namedHandlers_.eraseP (fun nh' => nh'.id == id),
        activeHandlers_ := m.activeHandlers_.erase nh.handler },
      heap2)

/-- Translated from `LogManager::enumNamedHandlers`, with the callback modelled by the
sequence of ids it would be called with, in registration order. -/
def LogManager.enumNamedHandlers (m : LogManager) : List JSONString :=
  m.namedHandlers_.map NamedHandler.id

/-- Modelled from the spec: an externally decoded configuration operation
(the wire-format decoding itself is out of scope). -/
inductive LogConfigOp where
  | addHandlerOp (id handlerType : JSONString) (handlerParams : JSONValue)
      (streamType : JSONString) (streamParams : JSONValue)
      (level : LogLevel) (filters : LogCategoryFilters)
  | removeHandlerOp (id : JSONString)

/-- Modelled from the spec: applying one configuration operation to the
registry.  A destroy request names success exactly when the id was
registered: destroying an unknown id leaves the registry untouched but is
reported to the caller as a lookup failure (spec sections 6 and 7). -/
def applyConfigOp (m : LogManager) (heap : Heap) : LogConfigOp → Bool × LogManager × Heap
  | .addHandlerOp id ty params sty sparams level filters =>
    let (ok, m') := m.addNamedHandler id ty params sty sparams level filters
    (ok, m', heap)
  | .removeHandlerOp id =>
    let (m', heap') := m.removeNamedHandler heap id
    (m.namedHandlers_.any (fun nh => nh.id == id), m', heap')

/-- Modelled from the spec: the encoded reply, at minimum a
success/failure indication. -/
def encodeReply (ok : Bool) : CString :=
  if ok then "ok".data else "error".data

/-- Modelled from the spec: `logProcessConfigRequest` (body in the missing
`.cpp`).  The caller-supplied reply buffer has fixed capacity: when the
encoded reply would not fit, the operation fails closed — no truncated
reply is emitted and no registry mutation is left applied. -/
def logProcessConfigRequest (m : LogManager) (heap : Heap) (op : LogConfigOp)
    (repCapacity : Nat) : Bool × Option CString × LogManager × Heap :=
  if repCapacity < (encodeReply (applyConfigOp m heap op).1).length then
    (false, Option.none, m, heap)
  else
    ((applyConfigOp m heap op).1, some (encodeReply (applyConfigOp m heap op).1),
      (applyConfigOp m heap op).2.1, (applyConfigOp m heap op).2.2)

/-- A sample filter table used to instantiate universally quantified
results on concrete inputs. -/
def sampleFilter : LogFilter :=
  ⟨[⟨"a".data, .WARN⟩, ⟨"a.b".data, .TRACE⟩], .INFO⟩

/-- A sample handler that records forwarded messages and keeps the base
raw-byte `write`; its table has default level NONE and no overrides. -/
def noneHandler : LogHandler (List CString) :=
  ⟨⟨[], .NONE⟩, fun st msg _ _ _ => msg :: st, Option.none⟩

/-- A sample handler factory with the default destroy operation. -/
def sampleHandlerFactory : LogHandlerFactory :=
  ⟨fun _ _ _ _ _ => some 7, Option.none⟩

/-- A sample stream factory with the default destroy operation. -/
def sampleStreamFactory : OutputStreamFactory :=
  ⟨fun _ _ => some 9, Option.none⟩

/-- A sample named-handler entry with id `"h1"` owning handler pointer 5. -/
def sampleNamed : NamedHandler :=
  ⟨"h1".data, 5, sampleHandlerFactory, Option.none⟩

/-- A sample registry holding one factory of each kind, the named entry
`"h1"` and its handler pointer in the active set. -/
def sampleManager : LogManager :=
  ⟨[sampleHandlerFactory], [sampleStreamFactory], [sampleNamed], [5]⟩

/-- A sample handler factory whose construction always fails. -/
def failHandlerFactory : LogHandlerFactory :=
  ⟨fun _ _ _ _ _ => Option.none, Option.none⟩

/-- A sample registry whose stream factory succeeds but whose only handler
factory fails to construct, exercising a mid-sequence creation failure. -/
def failManager : LogManager :=
  ⟨[failHandlerFactory], [sampleStreamFactory], [], []⟩

lemma prefix_of_matchesCategory {name c : CString} (h : matchesCategory name c = true) :
    name <+: c := by
  unfold matchesCategory at h
  rw [Bool.or_eq_true] at h
  rcases h with h | h
  · have he := beq_iff_eq.mp h
    subst he
    exact List.prefix_refl _
  · have hp := List.isPrefixOf_iff_prefix.mp h
    exact (List.prefix_append name ['.']).trans hp

lemma matchesCategory_nil {name : CString} (h : matchesCategory name [] = true) :
    name = [] :=
  List.prefix_nil.mp (prefix_of_matchesCategory h)

lemma matches_eq_of_length_eq {n1 n2 c : CString} (h1 : matchesCategory n1 c = true)
    (h2 : matchesCategory n2 c = true) (hl : n1.length = n2.length) : n1 = n2 := by
  have p1 := prefix_of_matchesCategory h1
  have p2 := prefix_of_matchesCategory h2
  exact List.IsPrefix.eq_of_length (List.prefix_of_prefix_length_le p1 p2 hl.le) hl

lemma bestMatch_eq_none_of {c : CString} {l : List LogCategoryFilter}
    (h : ∀ e ∈ l, matchesCategory e.cat_ c = false) : bestMatch c l = Option.none := by
  induction l with
  | nil => rfl
  | cons e rest ih =>
    have he := h e (List.mem_cons_self e rest)
    simp only [bestMatch, he]
    exact ih fun e' h' => h e' (List.mem_cons_of_mem e h')

lemma of_bestMatch_eq_none {c : CString} {l : List LogCategoryFilter}
    (h : bestMatch c l = Option.none) : ∀ e ∈ l, matchesCategory e.cat_ c = false := by
  induction l with
  | nil => intro e he; cases he
  | cons e rest ih =>
    intro e' he'
    by_cases hm : matchesCategory e.cat_ c = true
    · exfalso
      cases hb : bestMatch c rest with
      | none =>
        simp only [bestMatch, hm, hb, if_true] at h
        exact Option.noConfusion h
      | some b' =>
        simp only [bestMatch, hm, hb, if_true] at h
        by_cases hlen : b'.cat_.length < e.cat_.length
        · rw [if_pos hlen] at h; cases h
        · rw [if_neg hlen] at h; cases h
    · have hm' : matchesCategory e.cat_ c = false := by
        cases hmc : matchesCategory e.cat_ c
        · rfl
        · exact absurd hmc hm
      simp only [bestMatch, hm', Bool.false_eq_true, if_false] at h
      rcases List.mem_cons.mp he' with rfl | hmem
      · exact hm'
      · exact ih h e' hmem

lemma bestMatch_spec {c : CString} {l : List LogCategoryFilter} {b : LogCategoryFilter}
    (h : bestMatch c l = some b) :
    b ∈ l ∧ matchesCategory b.cat_ c = true ∧
      ∀ e ∈ l, matchesCategory e.cat_ c = true → e.cat_.length ≤ b.cat_.length := by
  induction l generalizing b with
  | nil => cases h
  | cons e rest ih =>
    by_cases hm : matchesCategory e.cat_ c = true
    · cases hb : bestMatch c rest with
      | none =>
        simp only [bestMatch, hm, hb, if_true] at h
        cases h
        refine ⟨List.mem_cons_self e rest, hm, ?_⟩
        intro e' he' hm'
        rcases List.mem_cons.mp he' with rfl | hmem
        · exact Nat.le_refl _
        · exact absurd (of_bestMatch_eq_none hb e' hmem) (by simp [hm'])
      | some b' =>
        simp only [bestMatch, hm, hb, if_true] at h
        obtain ⟨hmem', hbm', hmax'⟩ := ih hb
        by_cases hlen : b'.cat_.length < e.cat_.length
        · rw [if_pos hlen] at h
          cases h
          refine ⟨List.mem_cons_self e rest, hm, ?_⟩
          intro e' he' hm'
          rcases List.mem_cons.mp he' with rfl | hmem
          · exact Nat.le_refl _
          · exact Nat.le_trans (hmax' e' hmem hm') (Nat.le_of_lt hlen)
        · rw [if_neg hlen] at h
          cases h
          refine ⟨List.mem_cons_of_mem e hmem', hbm', ?_⟩
          intro e' he' hm'
          rcases List.mem_cons.mp he' with rfl | hmem
          · exact Nat.le_of_not_lt hlen
          · exact hmax' e' hmem hm'
    · have hm' : matchesCategory e.cat_ c = false := by
        cases hmc : matchesCategory e.cat_ c
        · rfl
        · exact absurd hmc hm
      simp only [bestMatch, hm', Bool.false_eq_true, if_false] at h
      obtain ⟨hmem', hbm', hmax'⟩ := ih h
      refine ⟨List.mem_cons_of_mem e hmem', hbm', ?_⟩
      intro e' he' hmc
      rcases List.mem_cons.mp he' with rfl | hmem
      · rw [hm'] at hmc; cases hmc
      · exact hmax' e' hmem hmc

lemma levelGE_NONE_eq_false {lvl : LogLevel} (h : lvl ≠ .NONE) :
    levelGE lvl .NONE = false := by
  cases lvl
  · rfl
  · rfl
  · rfl
  · rfl
  · exact absurd rfl h

lemma id_not_mem_eraseP_map {id : JSONString} {l : List NamedHandler}
    (hnd : (l.map NamedHandler.id).Nodup) :
    id ∉ (l.eraseP (fun nh => nh.id == id)).map NamedHandler.id := by
  induction l with
  | nil => simp
  | cons x xs ih =>
    rw [List.map_cons, List.nodup_cons] at hnd
    by_cases hx : x.id = id
    · have hb : (x.id == id) = true := beq_iff_eq.mpr hx
      have herase : List.eraseP (fun nh => nh.id == id) (x :: xs) = xs :=
        List.eraseP_cons_of_pos hb
      rw [herase]
      intro hmem
      rcases List.mem_map.mp hmem with ⟨y, hy, hyid⟩
      apply hnd.1
      rw [hx, ← hyid]
      exact List.mem_map_of_mem NamedHandler.id hy
    · have hb : ¬((x.id == id) = true) := fun hbc => hx (beq_iff_eq.mp hbc)
      have herase : List.eraseP (fun nh => nh.id == id) (x :: xs) =
          x :: List.eraseP (fun nh => nh.id == id) xs :=
        List.eraseP_cons_of_neg hb
      rw [herase, List.map_cons]
      intro hmem
      rcases List.mem_cons.mp hmem with h' | h'
      · exact hx h'.symm
      · exact ih hnd.2 h'

lemma removeNamedHandler_of_find_none {m : LogManager} {heap : Heap} {id : JSONString}
    (hf : m.namedHandlers_.find? (fun nh => nh.id == id) = Option.none) :
    m.removeNamedHandler heap id = (m, heap) := by
  simp [LogManager.removeNamedHandler, hf]

/-- A sample handler whose table lets everything through (default TRACE)
and which keeps the base raw-byte `write`. -/
def traceHandler : LogHandler (List CString) :=
  ⟨⟨[], .TRACE⟩, fun st msg _ _ _ => msg :: st, Option.none⟩

/-- C1: for every category string and built filter table, `LogFilter.level`
returns the level of the entry with the longest name that is the category
itself or a dot-separated prefix of it; if no entry qualifies it returns
the table's default level. -/
theorem logFilter_level_longest_match (f : LogFilter) (c : CString)
    (hnd : (f.filters_.map LogCategoryFilter.cat_).Nodup) :
    ((∀ e ∈ f.filters_, matchesCategory e.cat_ c = false) →
      f.level (some c) = f.level_) ∧
    ∀ e ∈ f.filters_, matchesCategory e.cat_ c = true →
      (∀ x ∈ f.filters_, matchesCategory x.cat_ c = true →
        x.cat_.length ≤ e.cat_.length) →
      f.level (some c) = e.level_ := by
  constructor
  · intro hnone
    simp [LogFilter.level, bestMatch_eq_none_of hnone]
  · intro e he hme hmax
    cases hb : bestMatch c f.filters_ with
    | none =>
      have hcontra := of_bestMatch_eq_none hb e he
      rw [hme] at hcontra
      exact Bool.noConfusion hcontra
    | some b =>
      obtain ⟨hmem, hbm, hbmax⟩ := bestMatch_spec hb
      have hlen : e.cat_.length = b.cat_.length :=
        Nat.le_antisymm (hbmax e he hme) (hmax b hmem hbm)
      have hcat : e.cat_ = b.cat_ := matches_eq_of_length_eq hme hbm hlen
      have heb : e = b := List.inj_on_of_nodup_map hnd he hmem hcat
      rw [heb]
      simp [LogFilter.level, hb]

/-- Witness for C1: on the table `{a -> WARN, a.b -> TRACE}` with default
INFO, the category `a.b.c` resolves to the longest match `a.b`. -/
theorem logFilter_level_longest_match_witness :
    sampleFilter.level (some "a.b.c".data) = LogLevel.TRACE :=
  (logFilter_level_longest_match sampleFilter "a.b.c".data (by decide)).2
    ⟨"a.b".data, LogLevel.TRACE⟩ (by decide) (by decide) (by decide)

/-- C7: for every built filter table, resolving a null or empty category
string returns the table's default level (entry names being non-empty,
per the table invariant). -/
theorem logFilter_level_null_or_empty (f : LogFilter)
    (h : ∀ e ∈ f.filters_, e.cat_ ≠ []) :
    f.level Option.none = f.level_ ∧ f.level (some []) = f.level_ := by
  refine ⟨rfl, ?_⟩
  have hb : bestMatch [] f.filters_ = Option.none :=
    bestMatch_eq_none_of fun e he => by
      cases hmc : matchesCategory e.cat_ []
      · rfl
      · exact absurd (matchesCategory_nil hmc) (h e he)
  simp [LogFilter.level, hb]

/-- Witness for C7 on a concrete non-trivial table. -/
theorem logFilter_level_null_or_empty_witness :
    sampleFilter.level Option.none = LogLevel.INFO ∧
    sampleFilter.level (some []) = LogLevel.INFO :=
  logFilter_level_null_or_empty sampleFilter (by decide)

/-- C2: both forwarding paths hand the event to the concrete processing
step exactly when `severity >= resolved level`; otherwise the handler
state is untouched; and a handler whose table has default level NONE and
no category overrides never receives any event (of any proper severity,
NONE being the "never log" sentinel, not an event severity). -/
theorem logHandler_gating {σ : Type} (h : LogHandler σ) (st : σ) (msg data : CString)
    (level : LogLevel) (category : Option CString) (attr : LogAttributes) :
    (levelGE level (h.filter_.level category) = true →
      h.message st msg level category attr = h.logMessageImpl st msg level category attr ∧
      h.write st data level category = h.writeImpl st data) ∧
    (levelGE level (h.filter_.level category) = false →
      h.message st msg level category attr = st ∧
      h.write st data level category = st) ∧
    (h.filter_.level_ = .NONE → h.filter_.filters_ = [] → level ≠ .NONE →
      h.message st msg level category attr = st ∧
      h.write st data level category = st) := by
  refine ⟨?_, ?_, ?_⟩
  · intro hacc
    exact ⟨by simp [LogHandler.message, hacc], by simp [LogHandler.write, hacc]⟩
  · intro hacc
    exact ⟨by simp [LogHandler.message, hacc], by simp [LogHandler.write, hacc]⟩
  · intro hdef hfil hne
    have hres : h.filter_.level category = .NONE := by
      cases category with
      | none => exact hdef
      | some c => simp [LogFilter.level, hfil, bestMatch, hdef]
    have hacc : levelGE level (h.filter_.level category) = false := by
      rw [hres]
      exact levelGE_NONE_eq_false hne
    exact ⟨by simp [LogHandler.message, hacc], by simp [LogHandler.write, hacc]⟩

/-- Witness for C2: a NONE-default handler with no overrides receives
neither a structured message nor raw bytes at severity ERROR. -/
theorem logHandler_gating_witness :
    noneHandler.message [] "m".data LogLevel.ERROR (some "app".data) {} = [] ∧
    noneHandler.write [] "d".data LogLevel.ERROR (some "app".data) = [] :=
  (logHandler_gating noneHandler [] "m".data "d".data LogLevel.ERROR
    (some "app".data) {}).2.2 rfl rfl (by decide)

/-- C3: the `isEnabled` hook returns true exactly when at least one active
sink would accept an event of that severity and category — in particular
it has no false negatives. -/
theorem logEnabled_iff_some_handler_accepts {σ : Type} (m : LogManager)
    (heap : Ptr → LogHandler σ) (level : LogLevel) (category : Option CString) :
    m.logEnabled heap level category = true ↔
      ∃ p ∈ m.activeHandlers_, (heap p).accepts level category = true := by
  unfold LogManager.logEnabled
  exact List.any_eq_true

/-- C5: adding an already-registered sink reference fails and leaves the
registered-sink set (and hence its count) unchanged. -/
theorem addHandler_duplicate_rejected (m : LogManager) (handler : Ptr)
    (h : handler ∈ m.activeHandlers_) :
    m.addHandler handler = (false, m) ∧
    (m.addHandler handler).2.activeHandlers_.length = m.activeHandlers_.length := by
  have h1 : m.addHandler handler = (false, m) := by
    simp [LogManager.addHandler, h]
  exact ⟨h1, by rw [h1]⟩

/-- Witness for C5: re-adding the handler pointer already active in the
sample registry fails and changes nothing. -/
theorem addHandler_duplicate_rejected_witness :
    sampleManager.addHandler 5 = (false, sampleManager) ∧
    (sampleManager.addHandler 5).2.activeHandlers_.length =
      sampleManager.activeHandlers_.length :=
  addHandler_duplicate_rejected sampleManager 5 (by decide)

/-- C6: after removing a named handler, an immediately following
enumeration never reports its id, and removing the same id again is a
no-op on the registry (idempotent removal). -/
theorem removeNamedHandler_enum_idempotent (m : LogManager) (heap : Heap)
    (id : JSONString) (hnd : (m.namedHandlers_.map NamedHandler.id).Nodup) :
    id ∉ ((m.removeNamedHandler heap id).1).enumNamedHandlers ∧
    ∀ heap' : Heap,
      ((m.removeNamedHandler heap id).1).removeNamedHandler heap' id =
        ((m.removeNamedHandler heap id).1, heap') := by
  have hmain : id ∉ ((m.removeNamedHandler heap id).1).enumNamedHandlers := by
    cases hf : m.namedHandlers_.find? (fun nh => nh.id == id) with
    | none =>
      simp only [LogManager.removeNamedHandler, hf, LogManager.enumNamedHandlers]
      intro hmem
      rcases List.mem_map.mp hmem with ⟨y, hy, hyid⟩
      exact List.find?_eq_none.mp hf y hy (beq_iff_eq.mpr hyid)
    | some nh =>
      simp only [LogManager.removeNamedHandler, hf, LogManager.enumNamedHandlers]
      exact id_not_mem_eraseP_map hnd
  refine ⟨hmain, ?_⟩
  intro heap'
  have hf2 : ((m.removeNamedHandler heap id).1).namedHandlers_.find?
      (fun nh => nh.id == id) = Option.none := by
    rw [List.find?_eq_none]
    intro x hx hbeq
    have hxid : x.id = id := beq_iff_eq.mp hbeq
    have hxmem : x.id ∈ ((m.removeNamedHandler heap id).1).enumNamedHandlers :=
      List.mem_map_of_mem NamedHandler.id hx
    rw [hxid] at hxmem
    exact hmain hxmem
  exact removeNamedHandler_of_find_none hf2

/-- Witness for C6: removing `"h1"` from the sample registry, then
enumerating and removing again. -/
theorem removeNamedHandler_enum_idempotent_witness :
    "h1".data ∉ ((sampleManager.removeNamedHandler [5] "h1".data).1).enumNamedHandlers ∧
    ((sampleManager.removeNamedHandler [5] "h1".data).1).removeNamedHandler [] "h1".data =
      ((sampleManager.removeNamedHandler [5] "h1".data).1, []) :=
  ⟨(removeNamedHandler_enum_idempotent sampleManager [5] "h1".data (by decide)).1,
    (removeNamedHandler_enum_idempotent sampleManager [5] "h1".data (by decide)).2 []⟩

/-- C4: `addNamedHandler` leaves the registry completely unchanged on any
failure, and it does fail when the id already exists, when the requested
stream cannot be built, or when sink construction fails at whatever point
the stream resolution reached (none requested, or requested and built). -/
theorem addNamedHandler_failure_atomic (m : LogManager) (id handlerType : JSONString)
    (handlerParams : JSONValue) (streamType : JSONString) (streamParams : JSONValue)
    (level : LogLevel) (filters : LogCategoryFilters) :
    ((m.addNamedHandler id handlerType handlerParams streamType streamParams
        level filters).1 = false →
      m.addNamedHandler id handlerType handlerParams streamType streamParams
        level filters = (false, m)) ∧
    (m.namedHandlers_.any (fun nh => nh.id == id) = true →
      m.addNamedHandler id handlerType handlerParams streamType streamParams
        level filters = (false, m)) ∧
    (streamType.isEmpty = false →
      createStreamVia m.streamFactories_ streamType streamParams = Option.none →
      m.addNamedHandler id handlerType handlerParams streamType streamParams
        level filters = (false, m)) ∧
    (∀ stream, streamFor m streamType streamParams = some stream →
      createHandlerVia m.handlerFactories_ handlerType handlerParams
        (stream.map Prod.fst) level filters = Option.none →
      m.addNamedHandler id handlerType handlerParams streamType streamParams
        level filters = (false, m)) := by
  by_cases hdup : m.namedHandlers_.any (fun nh => nh.id == id) = true
  · have hres : m.addNamedHandler id handlerType handlerParams streamType streamParams
        level filters = (false, m) := by
      simp [LogManager.addNamedHandler, hdup]
    exact ⟨fun _ => hres, fun _ => hres, fun _ _ => hres, fun _ _ _ => hres⟩
  · rw [Bool.not_eq_true] at hdup
    refine ⟨?_, ?_, ?_, ?_⟩
    · intro hfail
      cases hs : streamFor m streamType streamParams with
      | none => simp [LogManager.addNamedHandler, hdup, hs]
      | some stream =>
        cases hc : createHandlerVia m.handlerFactories_ handlerType handlerParams
            (stream.map Prod.fst) level filters with
        | none => simp [LogManager.addNamedHandler, hdup, hs, hc]
        | some pr =>
          exfalso
          obtain ⟨hp, hf⟩ := pr
          simp [LogManager.addNamedHandler, hdup, hs, hc] at hfail
    · intro h2
      rw [h2] at hdup
      exact Bool.noConfusion hdup
    · intro hne hcs
      have hs : streamFor m streamType streamParams = Option.none := by
        simp [streamFor, hne, hcs]
      simp [LogManager.addNamedHandler, hdup, hs]
    · intro stream hs hch
      simp [LogManager.addNamedHandler, hdup, hs, hch]

/-- Witness for C4: creating a named handler under the already-used id
`"h1"` fails and the sample registry is unchanged; and when the requested
stream is built but sink construction then fails, creation fails with the
registry unchanged (no partial registration for the built stream). -/
theorem addNamedHandler_failure_atomic_witness :
    sampleManager.addNamedHandler "h1".data "serial".data {} [] {}
      LogLevel.INFO [] = (false, sampleManager) ∧
    failManager.addNamedHandler "h2".data "serial".data {} "s".data {}
      LogLevel.INFO [] = (false, failManager) :=
  ⟨(addNamedHandler_failure_atomic sampleManager "h1".data "serial".data {} [] {}
      LogLevel.INFO []).2.1 (by decide),
    (addNamedHandler_failure_atomic failManager "h2".data "serial".data {} "s".data {}
      LogLevel.INFO []).2.2.2 (some (9, sampleStreamFactory)) rfl rfl⟩

/-- C8: when the encoded reply would exceed the declared reply-buffer
capacity, the configuration operation fails, emits no (truncated) reply,
and leaves no registry mutation applied. -/
theorem logProcessConfigRequest_overflow_fails_closed (m : LogManager) (heap : Heap)
    (op : LogConfigOp) (repCapacity : Nat)
    (h : repCapacity < (encodeReply (applyConfigOp m heap op).1).length) :
    logProcessConfigRequest m heap op repCapacity = (false, Option.none, m, heap) := by
  simp [logProcessConfigRequest, h]

/-- Witness for C8: a zero-capacity reply buffer makes a well-formed
destroy request fail closed without touching the registry, and a buffer
too small for the failure reply of an unknown-id destroy also fails
closed. -/
theorem logProcessConfigRequest_overflow_fails_closed_witness :
    logProcessConfigRequest sampleManager [5] (LogConfigOp.removeHandlerOp "h1".data) 0 =
      (false, Option.none, sampleManager, [5]) ∧
    logProcessConfigRequest sampleManager [5] (LogConfigOp.removeHandlerOp "zz".data) 3 =
      (false, Option.none, sampleManager, [5]) :=
  ⟨logProcessConfigRequest_overflow_fails_closed sampleManager [5]
      (LogConfigOp.removeHandlerOp "h1".data) 0 (by decide),
    logProcessConfigRequest_overflow_fails_closed sampleManager [5]
      (LogConfigOp.removeHandlerOp "zz".data) 3 (by decide)⟩

/-- C9: the base `LogHandler::write(data, size)` does nothing, so a
subclass that overrides only `logMessage` discards every raw-byte event on
the write path, gated or not. -/
theorem logHandler_write_default_noop {σ : Type} (h : LogHandler σ)
    (ho : h.writeOverride = Option.none) (st : σ) (data : CString)
    (level : LogLevel) (category : Option CString) :
    h.writeImpl st data = st ∧ h.write st data level category = st := by
  have h1 : h.writeImpl st data = st := by
    simp [LogHandler.writeImpl, ho]
  refine ⟨h1, ?_⟩
  unfold LogHandler.write
  split
  · exact h1
  · rfl

/-- Witness for C9: the trace-level handler passes the gate at ERROR yet
its raw-byte path changes nothing. -/
theorem logHandler_write_default_noop_witness :
    traceHandler.writeImpl ["s".data] "d".data = ["s".data] ∧
    traceHandler.write ["s".data] "d".data LogLevel.ERROR Option.none = ["s".data] :=
  logHandler_write_default_noop traceHandler rfl ["s".data] "d".data
    LogLevel.ERROR Option.none

/-- C10: unless overridden, the factory destroy operations are plain
deletion of the handler or stream object. -/
theorem factory_default_destroy_is_delete (f : LogHandlerFactory)
    (g : OutputStreamFactory) (hf : f.destroyHandlerOverride = Option.none)
    (hg : g.destroyStreamOverride = Option.none) (heap : Heap) (p q : Ptr) :
    f.destroyHandler heap p = deleteObj heap p ∧
    g.destroyStream heap q = deleteObj heap q := by
  constructor
  · simp [LogHandlerFactory.destroyHandler, hf]
  · simp [OutputStreamFactory.destroyStream, hg]

/-- Witness for C10 on the sample factories, which keep the defaults. -/
theorem factory_default_destroy_is_delete_witness :
    sampleHandlerFactory.destroyHandler [5, 9] 5 = deleteObj [5, 9] 5 ∧
    sampleStreamFactory.destroyStream [5, 9] 9 = deleteObj [5, 9] 9 :=
  factory_default_destroy_is_delete sampleHandlerFactory sampleStreamFactory
    rfl rfl [5, 9] 5 9

end Spark
